import Mathlib

/-- A row of a fully-loaded DataFrame: cell values positionally aligned with
the frame's column list (every cell a string after `fillna("")`). -/
abbrev Row := List String

/-- A search result entry: the full row paired with its `similarity` value
(the row dict produced by `to_dict(orient="records")`). -/
abbrev Scored := Row × ℚ

/-- The DataFrame as returned by `pd.read_excel`, before `fillna`:
a cell is `none` when the spreadsheet value is missing (NaN). -/
structure RawFrame where
  cols : List String
  rows : List (List (Option String))
deriving Repr, DecidableEq

/-- A DataFrame after `df.fillna("", inplace=True)`. -/
structure Frame where
  cols : List String
  rows : List Row
deriving Repr, DecidableEq

/-- `df.fillna("", inplace=True)`: every missing cell becomes `""`. -/
def fillna (rf : RawFrame) : Frame :=
  ⟨rf.cols, rf.rows.map (fun r => r.map (fun v => v.getD ""))⟩

/-- `row[col]`: positional lookup of a named column's value in a row. -/
def cellAt (f : Frame) (r : Row) (c : String) : String :=
  r.getD (f.cols.indexOf c) ""

/-- `' '.join(x.astype(str))` over the configured search columns of one row
(`df[search_columns].apply(..., axis=1)`). -/
def rowSearchText (cols searchCols : List String) (r : Row) : String :=
  String.intercalate " " (searchCols.map (fun c => r.getD (cols.indexOf c) ""))

/-- The corpus `df["search_text"]` the vectorizer is fitted over. -/
def corpusOf (searchCols : List String) (f : Frame) : List String :=
  f.rows.map (rowSearchText f.cols searchCols)

/-- `df["search_text"] = ...`: the frame extended with the derived column. -/
def buildDf (searchCols : List String) (f : Frame) : Frame :=
  ⟨f.cols ++ ["search_text"],
   f.rows.map (fun r => r ++ [rowSearchText f.cols searchCols r])⟩

/-- The global `cache` dict of `main.py`: `filepath`, `df`, `vectorizer`,
`matrix` (the last two represented by the corpus they were fitted on). -/
structure Cache where
  filepath : Option String
  df : Option Frame
  vectorizer : Option (List String)
  matrix : Option (List String)
deriving Repr, DecidableEq

/-- The all-`None` cache value used at startup, on upload and on rebuild
failure. -/
def emptyCache : Cache := ⟨none, none, none, none⟩

/-- The request-scoped failures (`HTTPException`s and wrapped errors) the
core can raise. -/
inductive HErr where
  /-- 500 「設定ファイルに検索対象列が指定されていません。」 -/
  | configError
  /-- 400 「設定ファイルで指定された列 col が…見つかりません。」 -/
  | missingColumn (col : String)
  /-- 500 wrapping an exception raised by `pd.read_excel`. -/
  | parseError
  /-- 500 wrapping an exception raised by `fit_transform`. -/
  | fitError
  /-- 400 「ファイルをアップロードしてください。」 -/
  | noUpload
  /-- 400 「'画面名称'列が見つかりません。」 -/
  | noCategoryColumn
  /-- 500 「データがキャッシュされていません。」 -/
  | notCached
deriving Repr, DecidableEq

/-- The environment a request runs against: the `uploads/` listing (path and
creation time per file), the parse outcome per path (`none` = `read_excel`
raises), whether `fit_transform` succeeds on a given corpus, the similarity
semantics, the behaviour of `sort_values` (see `SortOk`), and the loaded
`config["search_columns"]`. -/
structure Env where
  dir : List (String × Nat)
  read : String → Option RawFrame
  fitOk : List String → Bool
  sim : List String → String → String → ℚ
  sortFn : List Scored → List Scored
  searchCols : List String

/-- `max(paths, key=os.path.getctime)`: first entry of maximal creation time
(Python's `max` keeps the earlier element on ties). -/
def latestEntry : List (String × Nat) → Option (String × Nat)
  | [] => none
  | x :: xs => some (xs.foldl (fun acc y => if acc.2 < y.2 then y else acc) x)

/-- The rebuild branch of `_ensure_data_is_cached` (the「重い処理」block plus
its exception handler): parse, `fillna`, config validation, per-column schema
validation, `search_text` derivation, vectorizer fit, atomic cache update.
Returns the new cache, the outcome, and the number of file reads (always 1:
a rebuild reads the file once). -/
def rebuild (env : Env) (path : String) : Cache × Except HErr Unit × Nat :=
  match env.read path with
  | none => (emptyCache, .error .parseError, 1)
  | some raw =>
    if env.searchCols = [] then (emptyCache, .error .configError, 1)
    else
      match env.searchCols.find? (fun c => !((fillna raw).cols.contains c)) with
      | some col => (emptyCache, .error (.missingColumn col), 1)
      | none =>
        if env.fitOk (corpusOf env.searchCols (fillna raw)) then
          (⟨some path, some (buildDf env.searchCols (fillna raw)),
            some (corpusOf env.searchCols (fillna raw)),
            some (corpusOf env.searchCols (fillna raw))⟩,
           .ok (), 1)
        else (emptyCache, .error .fitError, 1)

/-- `_ensure_data_is_cached()`: no-op when `uploads/` is empty; cache hit
(no file I/O) when the cached `filepath` equals the newest file's path and a
DataFrame is cached; otherwise a full rebuild.  The `Nat` component counts
file reads performed by the call. -/
def ensureData (env : Env) (c : Cache) : Cache × Except HErr Unit × Nat :=
  match latestEntry env.dir with
  | none => (c, .ok (), 0)
  | some pt =>
    if c.filepath = some pt.1 ∧ c.df.isSome then (c, .ok (), 0)
    else rebuild env pt.1

/-- `upload_file`: the saved file replaces any entry at the same path in
`uploads/` and receives creation time `ctime`; the cache is invalidated. -/
def uploadFile (path : String) (ctime : Nat) (dir : List (String × Nat))
    (_c : Cache) : List (String × Nat) × Cache :=
  ((dir.filter (fun e => e.1 ≠ path)) ++ [(path, ctime)], emptyCache)

/-- Row filtering of `search_inquiries` (lines 205–211): rows paired with
their original positional index.  `if functional_area and functional_area !=
"すべて"` — a `None` or empty filter and the sentinel `"すべて"` keep the whole
frame; otherwise exact equality on the `画面名称` column, whose absence is a
400 error. -/
def candidatesOf (df : Frame) (fa : Option String) : Except HErr (List (Nat × Row)) :=
  match fa with
  | none => .ok df.rows.enum
  | some s =>
    if s = "" ∨ s = "すべて" then .ok df.rows.enum
    else if df.cols.contains "画面名称" then
      .ok (df.rows.enum.filter (fun ir => cellAt df ir.2 "画面名称" == s))
    else .error .noCategoryColumn

/-- Scoring (lines 218–230): slice the cached matrix at the filtered indices,
transform the query in the cached space, attach one cosine similarity per
retained row. -/
def scoreRows (env : Env) (keywords : String) (c : Cache)
    (cand : List (Nat × Row)) : List Scored :=
  cand.map (fun ir =>
    (ir.2, env.sim (c.vectorizer.getD []) keywords ((c.matrix.getD []).getD ir.1 "")))

/-- `search_inquiries(keywords, functional_area)`: the full request path
including the `uploads/` emptiness guard, `_ensure_data_is_cached`, the
filter, the empty-subset early return, scoring, `sort_values(by="similarity",
ascending=False).head(100)` and `to_dict(orient="records")`. -/
def searchInquiries (env : Env) (keywords : String) (fa : Option String)
    (c : Cache) : Cache × Except HErr (List Scored) :=
  if env.dir.isEmpty then (c, .error .noUpload)
  else
    match ensureData env c with
    | (c1, .error e, _) => (c1, .error e)
    | (c1, .ok _, _) =>
      match c1.df with
      | none => (c1, .error .notCached)
      | some df =>
        match candidatesOf df fa with
        | .error e => (c1, .error e)
        | .ok cand =>
          if cand.isEmpty then (c1, .ok [])
          else (c1, .ok ((env.sortFn (scoreRows env keywords c1 cand)).take 100))

/-- Helper for `uniqueFirst`: drop values already seen. -/
def uniqueFirstAux (seen : List String) : List String → List String
  | [] => []
  | x :: xs =>
    if x ∈ seen then uniqueFirstAux seen xs
    else x :: uniqueFirstAux (x :: seen) xs

/-- `pd.Series.unique()`: distinct values in order of first occurrence. -/
def uniqueFirst (l : List String) : List String :=
  uniqueFirstAux [] l

/-- `get_functional_areas()`: empty list when `uploads/` is empty, else
ensure the cache, then `df["画面名称"].dropna().unique().tolist()` (after
`fillna("")` no cell is NaN, so `dropna` removes nothing); a missing
DataFrame or a missing `画面名称` column is a 400 error. -/
def getFunctionalAreas (env : Env) (c : Cache) :
    Cache × Except HErr (List String) :=
  if env.dir.isEmpty then (c, .ok [])
  else
    match ensureData env c with
    | (c1, .error e, _) => (c1, .error e)
    | (c1, .ok _, _) =>
      match c1.df with
      | none => (c1, .error .noCategoryColumn)
      | some df =>
        if df.cols.contains "画面名称" then
          (c1, .ok (uniqueFirst (df.rows.map (fun r => cellAt df r "画面名称"))))
        else (c1, .error .noCategoryColumn)

/-- The documented contract of `sort_values(by="similarity", ascending=False)`
with the default `kind` (numpy quicksort): the output is a permutation of the
input, ordered by non-increasing similarity.  Stability is NOT part of this
contract. -/
def SortOk (f : List Scored → List Scored) : Prop :=
  ∀ l : List Scored, (f l).Perm l ∧ (f l).Pairwise (fun a b => b.2 ≤ a.2)

/-- Insertion step shared by the two concrete sorts below: `keep x y` decides
whether a later element `x` may stay in front of an earlier element `y`. -/
def insertSc (keep : ℚ → ℚ → Bool) (x : Scored) : List Scored → List Scored
  | [] => [x]
  | y :: ys => if keep x.2 y.2 then x :: y :: ys else y :: insertSc keep x ys

/-- Insertion sort parameterised by the placement test. -/
def sortSc (keep : ℚ → ℚ → Bool) : List Scored → List Scored
  | [] => []
  | x :: xs => insertSc keep x (sortSc keep xs)

/-- Stable descending sort: an earlier row stays in front of a later row of
equal score. -/
def sortDescStable : List Scored → List Scored :=
  sortSc (fun a b => b ≤ a)

/-- Anti-stable descending sort: ties come out in reversed input order.  It
satisfies `SortOk` just as well. -/
def sortDescAnti : List Scored → List Scored :=
  sortSc (fun a b => b < a)

/-- The filtered, scored candidate list that `search_inquiries` hands to
`sort_values`, read off a cache state (empty when no DataFrame is cached or
the filter errors). -/
def scoredOf (env : Env) (keywords : String) (fa : Option String) (c : Cache) :
    List Scored :=
  match c.df with
  | none => []
  | some df =>
    match candidatesOf df fa with
    | .error _ => []
    | .ok cand => scoreRows env keywords c cand

/-- Modelled from the spec (§4.4 steps 7–8): the result the spec prescribes —
the scored candidates sorted descending by similarity with ties broken by
original row order (a stable sort, no other secondary key), truncated to 100.
Stated for refinement comparison with the code's `sort_values` call. -/
def specRanked (env : Env) (keywords : String) (fa : Option String)
    (c : Cache) : List Scored :=
  (sortDescStable (scoredOf env keywords fa c)).take 100

/-- Replace the sorting routine of an environment. -/
def withSortFn (env : Env) (f : List Scored → List Scored) : Env :=
  ⟨env.dir, env.read, env.fitOk, env.sim, f, env.searchCols⟩

/-- Replace the `uploads/` listing of an environment. -/
def withDir (env : Env) (d : List (String × Nat)) : Env :=
  ⟨d, env.read, env.fitOk, env.sim, env.sortFn, env.searchCols⟩

/-- A two-row single-column spreadsheet (used for tie-breaking scenarios). -/
def rawTie : RawFrame := ⟨["t"], [[some "a"], [some "b"]]⟩

/-- Environment for the tie-breaking scenario: one uploaded file, all rows
receive similarity 0 for every query. -/
def envTie : Env :=
  ⟨[("uploads/data.xlsx", 1)],
   fun p => if p = "uploads/data.xlsx" then some rawTie else none,
   fun _ => true, fun _ _ _ => 0, sortDescStable, ["t"]⟩

/-- A spreadsheet with a category column where one row's category is missing. -/
def rawCat : RawFrame := ⟨["画面名称"], [[some "A"], [none]]⟩

/-- Environment holding `rawCat` as the single uploaded file. -/
def envCat : Env :=
  ⟨[("uploads/cat.xlsx", 1)],
   fun p => if p = "uploads/cat.xlsx" then some rawCat else none,
   fun _ => true, fun _ _ _ => 0, sortDescStable, ["画面名称"]⟩

/-- A spreadsheet with a category column and one searchable column. -/
def rawCat2 : RawFrame := ⟨["画面名称", "t"], [[some "A", some "x"]]⟩

/-- Environment holding `rawCat2` as the single uploaded file. -/
def envCat2 : Env :=
  ⟨[("uploads/cat2.xlsx", 1)],
   fun p => if p = "uploads/cat2.xlsx" then some rawCat2 else none,
   fun _ => true, fun _ _ _ => 0, sortDescStable, ["t"]⟩

/-- A spreadsheet with no category column at all. -/
def rawNoCat : RawFrame := ⟨["t"], [[some "x"]]⟩

/-- Environment holding `rawNoCat` as the single uploaded file. -/
def envNoCat : Env :=
  ⟨[("uploads/nocat.xlsx", 1)],
   fun p => if p = "uploads/nocat.xlsx" then some rawNoCat else none,
   fun _ => true, fun _ _ _ => 0, sortDescStable, ["t"]⟩

/-- Environment with an empty `search_columns` configuration. -/
def envNoCfg : Env :=
  ⟨[("uploads/nocfg.xlsx", 1)],
   fun p => if p = "uploads/nocfg.xlsx" then some rawTie else none,
   fun _ => true, fun _ _ _ => 0, sortDescStable, []⟩

/-- The cache state after a successful rebuild from `envTie`. -/
def cTie : Cache :=
  ⟨some "uploads/data.xlsx", some ⟨["t", "search_text"], [["a", "a"], ["b", "b"]]⟩,
   some ["a", "b"], some ["a", "b"]⟩

/-- The cache state after a successful rebuild from `envCat2`. -/
def cCat2 : Cache :=
  ⟨some "uploads/cat2.xlsx",
   some ⟨["画面名称", "t", "search_text"], [["A", "x", "x"]]⟩,
   some ["x"], some ["x"]⟩

/-- The cache state after a successful rebuild from `envNoCat`. -/
def cNoCat : Cache :=
  ⟨some "uploads/nocat.xlsx", some ⟨["t", "search_text"], [["x", "x"]]⟩,
   some ["x"], some ["x"]⟩

/-- Environment whose configuration names a column the spreadsheet lacks. -/
def envMisCol : Env :=
  ⟨[("uploads/mis.xlsx", 1)],
   fun p => if p = "uploads/mis.xlsx" then some rawTie else none,
   fun _ => true, fun _ _ _ => 0, sortDescStable, ["zz"]⟩

/-! ## Theorems -/

theorem insertSc_perm (keep : ℚ → ℚ → Bool) (x : Scored) :
    ∀ l : List Scored, (insertSc keep x l).Perm (x :: l) := by
  intro l
  induction l with
  | nil => simp [insertSc]
  | cons y ys ih =>
    simp only [insertSc]
    by_cases h : keep x.2 y.2 = true
    · simp [h]
    · simp only [h, if_false]
      exact (ih.cons y).trans (List.Perm.swap x y ys)

theorem insertSc_pairwise (keep : ℚ → ℚ → Bool)
    (hT : ∀ a b : ℚ, keep a b = true → b ≤ a)
    (hF : ∀ a b : ℚ, keep a b = false → a ≤ b)
    (x : Scored) :
    ∀ l : List Scored, l.Pairwise (fun a b => b.2 ≤ a.2) →
      (insertSc keep x l).Pairwise (fun a b : Scored => b.2 ≤ a.2) := by
  intro l
  induction l with
  | nil => intro _; simp [insertSc]
  | cons y ys ih =>
    intro hp
    rcases List.pairwise_cons.mp hp with ⟨hy, hys⟩
    simp only [insertSc]
    by_cases h : keep x.2 y.2 = true
    · simp only [h, if_true]
      refine List.pairwise_cons.mpr ⟨?_, hp⟩
      intro z hz
      rcases List.mem_cons.mp hz with hz | hz
      · exact hz ▸ hT _ _ h
      · exact le_trans (hy z hz) (hT _ _ h)
    · simp only [h, if_false]
      refine List.pairwise_cons.mpr ⟨?_, ih hys⟩
      intro z hz
      have hz' : z ∈ x :: ys := (insertSc_perm keep x ys).mem_iff.mp hz
      rcases List.mem_cons.mp hz' with hz' | hz'
      · have hxy : x.2 ≤ y.2 := hF _ _ (Bool.eq_false_iff.mpr h)
        exact hz' ▸ hxy
      · exact hy z hz'

theorem sortSc_perm (keep : ℚ → ℚ → Bool) :
    ∀ l : List Scored, (sortSc keep l).Perm l := by
  intro l
  induction l with
  | nil => simp [sortSc]
  | cons x xs ih =>
    exact (insertSc_perm keep x (sortSc keep xs)).trans (ih.cons x)

theorem sortSc_pairwise (keep : ℚ → ℚ → Bool)
    (hT : ∀ a b : ℚ, keep a b = true → b ≤ a)
    (hF : ∀ a b : ℚ, keep a b = false → a ≤ b) :
    ∀ l : List Scored, (sortSc keep l).Pairwise (fun a b : Scored => b.2 ≤ a.2) := by
  intro l
  induction l with
  | nil => simp [sortSc]
  | cons x xs ih => exact insertSc_pairwise keep hT hF x _ ih

theorem sortOk_sortDescStable : SortOk sortDescStable := by
  intro l
  constructor
  · exact sortSc_perm _ l
  · refine sortSc_pairwise _ ?_ ?_ l
    · intro a b h
      exact of_decide_eq_true h
    · intro a b h
      exact le_of_not_le (of_decide_eq_false h)

theorem sortOk_sortDescAnti : SortOk sortDescAnti := by
  intro l
  constructor
  · exact sortSc_perm _ l
  · refine sortSc_pairwise _ ?_ ?_ l
    · intro a b h
      exact le_of_lt (of_decide_eq_true h)
    · intro a b h
      exact le_of_not_lt (of_decide_eq_false h)

theorem snd_mem_of_mem_enumFrom {α : Type} {l : List α} {n : Nat}
    {ix : Nat × α} (h : ix ∈ l.enumFrom n) : ix.2 ∈ l := by
  induction l generalizing n with
  | nil => cases h
  | cons a as ih =>
    rcases List.mem_cons.mp h with h | h
    · subst h
      exact List.mem_cons_self _ _
    · exact List.mem_cons_of_mem _ (ih h)

/-- Every candidate row produced by the filter is a row of the frame. -/
theorem mem_candidatesOf {df : Frame} {fa : Option String}
    {cand : List (Nat × Row)} (h : candidatesOf df fa = .ok cand) :
    ∀ ir ∈ cand, ir.2 ∈ df.rows := by
  intro ir hir
  unfold candidatesOf at h
  split at h
  · cases h
    exact snd_mem_of_mem_enumFrom hir
  · split at h
    · cases h
      exact snd_mem_of_mem_enumFrom hir
    · split at h
      · cases h
        have := (List.mem_filter.mp hir).1
        exact snd_mem_of_mem_enumFrom this
      · cases h

/-- Anatomy of a successful `search_inquiries` call: the ensure step
succeeded and yielded the final cache state, a DataFrame was cached, the
filter succeeded, and the result is either the empty-subset early return or
`sort_values(...).head(100)` over the scored candidates. -/
theorem search_ok_cases {env : Env} {q : String} {fa : Option String}
    {c c' : Cache} {r : List Scored}
    (h : searchInquiries env q fa c = (c', .ok r)) :
    ∃ n, ensureData env c = (c', .ok (), n) ∧
      ∃ df, c'.df = some df ∧ ∃ cand, candidatesOf df fa = .ok cand ∧
        ((cand = [] ∧ r = []) ∨
          r = (env.sortFn (scoreRows env q c' cand)).take 100) := by
  unfold searchInquiries at h
  split at h
  · cases h
  · split at h
    next c1 e n heq =>
      cases h
    next c1 u n heq =>
      cases u
      split at h
      · cases h
      next df hdf =>
        split at h
        next e hcand => cases h
        next cand hcand =>
          split at h
          next hemp =>
            cases h
            exact ⟨n, heq, df, hdf, cand, hcand,
              Or.inl ⟨List.isEmpty_iff.mp hemp, rfl⟩⟩
          next hemp =>
            cases h
            exact ⟨n, heq, df, hdf, cand, hcand, Or.inr rfl⟩

/-- Every entry of a successful search result is a scored candidate row of
the final cache state (assuming only the documented sort contract). -/
theorem search_ok_mem {env : Env} {q : String} {fa : Option String}
    {c c' : Cache} {r : List Scored} (hs : SortOk env.sortFn)
    (h : searchInquiries env q fa c = (c', .ok r)) :
    ∀ x ∈ r, ∃ df cand, c'.df = some df ∧ candidatesOf df fa = .ok cand ∧
      ∃ ir ∈ cand,
        x = (ir.2, env.sim (c'.vectorizer.getD []) q
              ((c'.matrix.getD []).getD ir.1 "")) := by
  obtain ⟨n, hens, df, hdf, cand, hcand, hres⟩ := search_ok_cases h
  intro x hx
  rcases hres with ⟨hc, hr⟩ | hr
  · subst hr
    cases hx
  · subst hr
    have hx1 : x ∈ env.sortFn (scoreRows env q c' cand) :=
      List.mem_of_mem_take hx
    have hx2 : x ∈ scoreRows env q c' cand := ((hs _).1.mem_iff).mp hx1
    obtain ⟨ir, hir, hxe⟩ := List.mem_map.mp hx2
    exact ⟨df, cand, hdf, hcand, ir, hir, hxe.symm⟩

theorem latestEntry_isSome {dir : List (String × Nat)} (h : dir ≠ []) :
    ∃ pt, latestEntry dir = some pt := by
  cases dir with
  | nil => exact absurd rfl h
  | cons x xs => exact ⟨_, rfl⟩

theorem isEmpty_false_of_latestEntry {dir : List (String × Nat)}
    {pt : String × Nat} (h : latestEntry dir = some pt) :
    dir.isEmpty = false := by
  cases dir with
  | nil => cases h
  | cons x xs => rfl

theorem foldl_max_eq {p : String} {t : Nat} :
    ∀ (xs : List (String × Nat)) (acc : String × Nat),
    (acc = (p, t) ∨ acc.2 < t) → (acc = (p, t) ∨ (p, t) ∈ xs) →
    (∀ e ∈ xs, e = (p, t) ∨ e.2 < t) →
    xs.foldl (fun a y => if a.2 < y.2 then y else a) acc = (p, t) := by
  intro xs
  induction xs with
  | nil =>
    intro acc hacc hmem _
    rcases hmem with h | h
    · exact h
    · cases h
  | cons y ys ih =>
    intro acc hacc hmem hmax
    simp only [List.foldl_cons]
    rcases hmax y (List.mem_cons_self _ _) with hy | hy
    · by_cases hlt : acc.2 < y.2
      · rw [if_pos hlt]
        exact ih y (Or.inl hy) (Or.inl hy)
          (fun e he => hmax e (List.mem_cons_of_mem _ he))
      · rw [if_neg hlt]
        rcases hacc with ha | ha
        · exact ih acc (Or.inl ha) (Or.inl ha)
            (fun e he => hmax e (List.mem_cons_of_mem _ he))
        · have hay : acc.2 < y.2 := by
            rw [hy]
            exact ha
          exact absurd hay hlt
    · by_cases hlt : acc.2 < y.2
      · rw [if_pos hlt]
        have hmem' : y = (p, t) ∨ (p, t) ∈ ys := by
          rcases hmem with h | h
          · rw [h] at hlt
            exact absurd (lt_trans hlt hy) (lt_irrefl t)
          · rcases List.mem_cons.mp h with h | h
            · exact Or.inl h.symm
            · exact Or.inr h
        rcases hmem' with h | h
        · exact ih y (Or.inl h) (Or.inl h)
            (fun e he => hmax e (List.mem_cons_of_mem _ he))
        · exact ih y (Or.inr hy) (Or.inr h)
            (fun e he => hmax e (List.mem_cons_of_mem _ he))
      · rw [if_neg hlt]
        have hmem' : acc = (p, t) ∨ (p, t) ∈ ys := by
          rcases hmem with h | h
          · exact Or.inl h
          · rcases List.mem_cons.mp h with h | h
            · rw [← h] at hy
              exact absurd hy (lt_irrefl t)
            · exact Or.inr h
        exact ih acc hacc hmem'
          (fun e he => hmax e (List.mem_cons_of_mem _ he))

/-- `max(..., key=os.path.getctime)` selects the file whose creation time is
strictly greater than every other entry's. -/
theorem latestEntry_strictMax {dir : List (String × Nat)} {p : String}
    {t : Nat} (hmem : (p, t) ∈ dir)
    (hmax : ∀ e ∈ dir, e = (p, t) ∨ e.2 < t) :
    latestEntry dir = some (p, t) := by
  cases dir with
  | nil => cases hmem
  | cons x xs =>
    simp only [latestEntry, Option.some.injEq]
    have hx := hmax x (List.mem_cons_self _ _)
    have hmem' : x = (p, t) ∨ (p, t) ∈ xs := by
      rcases List.mem_cons.mp hmem with h | h
      · exact Or.inl h.symm
      · exact Or.inr h
    exact foldl_max_eq xs x hx hmem'
      (fun e he => hmax e (List.mem_cons_of_mem _ he))

/-- Cache hit: nothing happens, no file is read. -/
theorem ensureData_hit {env : Env} {c : Cache} {pt : String × Nat}
    (hl : latestEntry env.dir = some pt) (hfp : c.filepath = some pt.1)
    (hdf : c.df.isSome) : ensureData env c = (c, .ok (), 0) := by
  unfold ensureData
  rw [hl]
  simp [hfp, hdf]

/-- Cache miss: `_ensure_data_is_cached` performs the full rebuild. -/
theorem ensureData_miss {env : Env} {c : Cache} {pt : String × Nat}
    (hl : latestEntry env.dir = some pt)
    (hm : ¬(c.filepath = some pt.1 ∧ c.df.isSome)) :
    ensureData env c = rebuild env pt.1 := by
  unfold ensureData
  rw [hl]
  exact if_neg hm

/-- A rebuild always reads the source file exactly once. -/
theorem rebuild_reads_one (env : Env) (p : String) :
    (rebuild env p).2.2 = 1 := by
  unfold rebuild
  split
  · rfl
  · split
    · rfl
    · split
      · rfl
      · split
        · rfl
        · rfl

/-- A successful rebuild caches exactly the table, vectorizer corpus and
matrix derived from the parsed file, keyed by the file's path. -/
theorem rebuild_ok {env : Env} {p : String} {c' : Cache} {n : Nat}
    (h : rebuild env p = (c', .ok (), n)) :
    ∃ raw, env.read p = some raw ∧ n = 1 ∧
      c' = ⟨some p, some (buildDf env.searchCols (fillna raw)),
            some (corpusOf env.searchCols (fillna raw)),
            some (corpusOf env.searchCols (fillna raw))⟩ := by
  unfold rebuild at h
  split at h
  · simp at h
  next raw hraw =>
    split at h
    · simp at h
    · split at h
      · simp at h
      · split at h
        · injection h with h1 h2
          injection h2 with h2a h2b
          exact ⟨raw, hraw, h2b.symm, h1.symm⟩
        · simp at h

/-- C1, counterexample.  The claim states that search returns the filtered
rows in stable descending-similarity order (`specRanked`).  The code's
`sort_values(by="similarity", ascending=False)` call uses the default
quicksort `kind`, whose contract (`SortOk`) does not promise stability: a
contract-conforming sorting routine (`sortDescAnti`) makes search return the
two tied rows of `envTie` in the opposite of the claimed order. -/
theorem search_stable_order_cex :
    ¬ ∀ f : List Scored → List Scored, SortOk f →
      (searchInquiries (withSortFn envTie f) "q" none emptyCache).2 =
        .ok (specRanked (withSortFn envTie f) "q" none
          (searchInquiries (withSortFn envTie f) "q" none emptyCache).1) := by
  intro h
  have h2 := h sortDescAnti sortOk_sortDescAnti
  have e1 : (searchInquiries (withSortFn envTie sortDescAnti) "q" none
      emptyCache).2 = .ok [(["b", "b"], (0 : ℚ)), (["a", "a"], 0)] := rfl
  have e2 : specRanked (withSortFn envTie sortDescAnti) "q" none
      (searchInquiries (withSortFn envTie sortDescAnti) "q" none emptyCache).1 =
      [(["a", "a"], (0 : ℚ)), (["b", "b"], 0)] := rfl
  rw [e1, e2] at h2
  injection h2 with h3
  have : (["b", "b"] : Row) = ["a", "a"] := congrArg (fun l => (l.getD 0 (["z"], 0)).1) h3
  exact absurd this (by decide)

/-- C1, amended.  For every sorting routine satisfying the documented
`sort_values` contract, a successful search returns a list that is sorted by
descending similarity, has at most 100 entries, and consists of the first
100 elements of some permutation of the filtered scored rows; the order of
rows with equal scores is not further specified. -/
theorem search_ranked_desc_top100 {env : Env} {q : String} {fa : Option String}
    {c c' : Cache} {r : List Scored} (hs : SortOk env.sortFn)
    (h : searchInquiries env q fa c = (c', .ok r)) :
    r.Pairwise (fun a b : Scored => b.2 ≤ a.2) ∧ r.length ≤ 100 ∧
      ∃ full : List Scored, full.Perm (scoredOf env q fa c') ∧
        r = full.take 100 := by
  obtain ⟨n, hens, df, hdf, cand, hcand, hres⟩ := search_ok_cases h
  have hscored : scoredOf env q fa c' = scoreRows env q c' cand := by
    simp only [scoredOf, hdf, hcand]
  rcases hres with ⟨hc, hr⟩ | hr
  · subst hr
    refine ⟨List.Pairwise.nil, by simp, [], ?_, by simp⟩
    rw [hscored, hc]
    simp [scoreRows]
  · subst hr
    obtain ⟨hperm, hsorted⟩ := hs (scoreRows env q c' cand)
    refine ⟨List.Pairwise.sublist (List.take_sublist _ _) hsorted,
      List.length_take_le _ _,
      env.sortFn (scoreRows env q c' cand), ?_, rfl⟩
    rw [hscored]
    exact hperm

/-- Witness for C1 amended, at `envTie` with the stable sorting routine. -/
theorem search_ranked_desc_top100_witness :
    SortOk envTie.sortFn ∧
    searchInquiries envTie "q" none emptyCache =
      (cTie, .ok [(["a", "a"], (0 : ℚ)), (["b", "b"], 0)]) ∧
    (([(["a", "a"], (0 : ℚ)), (["b", "b"], 0)] : List Scored).Pairwise
        (fun a b : Scored => b.2 ≤ a.2) ∧
      ([(["a", "a"], (0 : ℚ)), (["b", "b"], 0)] : List Scored).length ≤ 100 ∧
      ∃ full : List Scored, full.Perm (scoredOf envTie "q" none cTie) ∧
        ([(["a", "a"], (0 : ℚ)), (["b", "b"], 0)] : List Scored) =
          full.take 100) :=
  ⟨sortOk_sortDescStable, rfl,
   @search_ranked_desc_top100 envTie "q" none emptyCache cTie
     [(["a", "a"], (0 : ℚ)), (["b", "b"], 0)] sortOk_sortDescStable rfl⟩

/-- C2, counterexample.  The cached source identity is the file path alone:
after building the cache from a file with creation marker 1, replacing the
marker by 2 (same path) changes the claimed identity, yet `ensureFresh` still
reports a cache hit with zero file reads instead of triggering a rebuild. -/
theorem ensure_identity_cex :
    latestEntry envTie.dir = some ("uploads/data.xlsx", 1) ∧
    latestEntry (withDir envTie [("uploads/data.xlsx", 2)]).dir =
      some ("uploads/data.xlsx", 2) ∧
    (1 : Nat) ≠ 2 ∧
    ensureData envTie emptyCache = (cTie, .ok (), 1) ∧
    ensureData (withDir envTie [("uploads/data.xlsx", 2)]) cTie =
      (cTie, .ok (), 0) :=
  ⟨rfl, rfl, by decide, rfl, rfl⟩

/-- C2, amended.  `ensureFresh` keys the cache by the newest file's path
alone: given a newest entry `(p, t)`, the call is a hit (no file I/O, cache
unchanged) exactly when the cached `filepath` equals `p` and a table is
cached; the creation marker `t` only determines which file is newest and is
not part of the hit test. -/
theorem ensure_hit_iff_path {env : Env} {c : Cache} {p : String} {t : Nat}
    (hl : latestEntry env.dir = some (p, t)) :
    ensureData env c = (c, .ok (), 0) ↔
      (c.filepath = some p ∧ c.df.isSome) := by
  constructor
  · intro h
    by_contra hm
    rw [ensureData_miss hl hm] at h
    have h1 := rebuild_reads_one env p
    rw [h] at h1
    have h2 : (0 : Nat) = 1 := h1
    exact absurd h2 (by decide)
  · intro hh
    exact ensureData_hit hl hh.1 hh.2

/-- Witness for C2 amended, at `envTie` and its rebuilt cache `cTie`. -/
theorem ensure_hit_iff_path_witness :
    latestEntry envTie.dir = some ("uploads/data.xlsx", 1) ∧
    (ensureData envTie cTie = (cTie, .ok (), 0) ↔
      (cTie.filepath = some "uploads/data.xlsx" ∧ cTie.df.isSome)) :=
  ⟨rfl, @ensure_hit_iff_path envTie cTie "uploads/data.xlsx" 1 rfl⟩

/-- C3.  In `envCat` the second row's `画面名称` cell is missing; at load
time `fillna` turns it into `""`, so the later `dropna()` in
`get_functional_areas` removes nothing and `unique()` keeps `""`: the
endpoint returns `["A", ""]`, not the claimed distinct NON-empty values
`["A"]`.  (The `dropna()` call in the source shows the intent of excluding
missing categories; `fillna("")` at load time defeats it.) -/
theorem functional_areas_keep_empty :
    rawCat.rows.getD 1 [] = [none] ∧
    (getFunctionalAreas envCat emptyCache).2 = .ok ["A", ""] ∧
    "" ∈ (["A", ""] : List String) :=
  ⟨rfl, rfl, by decide⟩

/-- The error half of C4: every failing rebuild leaves the cache fully
empty. -/
theorem rebuild_error_resets (env : Env) (p : String) (e : HErr) :
    (rebuild env p).2.1 = .error e → (rebuild env p).1 = emptyCache := by
  unfold rebuild
  split
  · intro _
    rfl
  · split
    · intro _
      rfl
    · split
      · intro _
        rfl
      · split
        · intro h
          simp at h
        · intro _
          rfl

/-- C4.  If `_ensure_data_is_cached` propagates an error — whichever step of
parsing, validation, `search_text` derivation or index fitting failed — the
cache entry afterwards is fully empty (`filepath`, `df`, `vectorizer`,
`matrix` all `None`): no half-updated or stale-but-mismatched entry
survives. -/
theorem ensure_error_resets {env : Env} {c : Cache} {e : HErr}
    (h : (ensureData env c).2.1 = .error e) :
    (ensureData env c).1 = emptyCache := by
  unfold ensureData at h ⊢
  split at h
  · simp at h
  next pt _ =>
    split at h
    · simp at h
    next hm =>
      rw [if_neg hm]
      exact rebuild_error_resets env pt.1 e h

/-- Witness for C4: the empty `search_columns` configuration of `envNoCfg`
makes the rebuild fail, and the cache afterwards is empty. -/
theorem ensure_error_resets_witness :
    (ensureData envNoCfg emptyCache).2.1 = .error .configError ∧
    (ensureData envNoCfg emptyCache).1 = emptyCache :=
  ⟨rfl, @ensure_error_resets envNoCfg emptyCache .configError rfl⟩

/-- C5.  After a valid upload of file `p2` (which invalidates the cache and
gives `p2` a creation time strictly greater than every previously uploaded
file's), every successful search returns only rows derived from `p2`'s
content: each returned row is a row of the table built from the newly parsed
file, never a row of any earlier upload. -/
theorem upload_then_search_isolated {env2 : Env} {dir1 : List (String × Nat)}
    {cOld : Cache} {p2 : String} {t2 : Nat} {raw2 : RawFrame} {q : String}
    {fa : Option String} {c' : Cache} {r : List Scored}
    (hs : SortOk env2.sortFn)
    (hdir : env2.dir = (uploadFile p2 t2 dir1 cOld).1)
    (hmax : ∀ e ∈ dir1, e.2 < t2)
    (hread : env2.read p2 = some raw2)
    (h : searchInquiries env2 q fa (uploadFile p2 t2 dir1 cOld).2 = (c', .ok r)) :
    ∀ x ∈ r, x.1 ∈ (buildDf env2.searchCols (fillna raw2)).rows := by
  have hmem : (p2, t2) ∈ env2.dir := by
    rw [hdir]
    exact List.mem_append_right _ (List.mem_singleton.mpr rfl)
  have hmax' : ∀ e ∈ env2.dir, e = (p2, t2) ∨ e.2 < t2 := by
    intro e he
    rw [hdir] at he
    rcases List.mem_append.mp he with he | he
    · exact Or.inr (hmax e (List.mem_of_mem_filter he))
    · exact Or.inl (List.mem_singleton.mp he)
  have hl : latestEntry env2.dir = some (p2, t2) := latestEntry_strictMax hmem hmax'
  obtain ⟨n, hens, df, hdf, cand, hcand, _⟩ := search_ok_cases h
  have hup : (uploadFile p2 t2 dir1 cOld).2 = emptyCache := rfl
  rw [hup] at hens
  have hmiss : ensureData env2 emptyCache = rebuild env2 p2 :=
    ensureData_miss hl (by simp [emptyCache])
  rw [hmiss] at hens
  obtain ⟨raw, hraw, hn, hc'⟩ := rebuild_ok hens
  rw [hread] at hraw
  injection hraw with hraw
  subst hraw
  have hdfeq : df = buildDf env2.searchCols (fillna raw2) := by
    rw [hc'] at hdf
    exact (Option.some.inj hdf).symm
  intro x hx
  obtain ⟨df2, cand2, hdf2, hcand2, ir, hir, hxe⟩ := search_ok_mem hs h x hx
  have hdf2eq : df2 = df := by
    rw [hdf] at hdf2
    exact (Option.some.inj hdf2).symm
  have hrow : ir.2 ∈ df2.rows := mem_candidatesOf hcand2 ir hir
  rw [hxe]
  rw [hdf2eq, hdfeq] at hrow
  exact hrow

/-- Witness for C5: uploading `rawTie`'s file into an empty directory and
searching; both returned rows are rows of the table built from `rawTie`. -/
theorem upload_then_search_isolated_witness :
    envTie.dir = (uploadFile "uploads/data.xlsx" 1 [] emptyCache).1 ∧
    envTie.read "uploads/data.xlsx" = some rawTie ∧
    searchInquiries envTie "q" none (uploadFile "uploads/data.xlsx" 1 [] emptyCache).2 =
      (cTie, .ok [(["a", "a"], (0 : ℚ)), (["b", "b"], 0)]) ∧
    ∀ x ∈ ([(["a", "a"], (0 : ℚ)), (["b", "b"], 0)] : List Scored),
      x.1 ∈ (buildDf envTie.searchCols (fillna rawTie)).rows :=
  ⟨rfl, rfl, rfl,
   @upload_then_search_isolated envTie [] emptyCache "uploads/data.xlsx" 1
     rawTie "q" none cTie [(["a", "a"], (0 : ℚ)), (["b", "b"], 0)]
     sortOk_sortDescStable rfl (by intro e he; cases he) rfl rfl⟩

/-- C6.  On a rebuild (cache miss) of a parseable file: an empty
`search_columns` configuration fails with the configuration error, and a
configured column absent from the parsed file's columns fails with the
schema error naming a missing configured column — in both cases resetting
the cache. -/
theorem rebuild_config_schema_errors {env : Env} {c : Cache} {p : String}
    {t : Nat} {raw : RawFrame}
    (hl : latestEntry env.dir = some (p, t))
    (hm : ¬(c.filepath = some p ∧ c.df.isSome))
    (hread : env.read p = some raw) :
    (env.searchCols = [] →
      ensureData env c = (emptyCache, .error .configError, 1)) ∧
    ((∃ col ∈ env.searchCols, col ∉ raw.cols) →
      ∃ col, col ∈ env.searchCols ∧ col ∉ raw.cols ∧
        ensureData env c = (emptyCache, .error (.missingColumn col), 1)) := by
  have hrw : ensureData env c = rebuild env p := ensureData_miss hl hm
  constructor
  · intro hcfg
    rw [hrw]
    simp only [rebuild, hread]
    rw [if_pos hcfg]
  · intro hex
    obtain ⟨col0, hcol0, hmiss0⟩ := hex
    have hsome : (env.searchCols.find?
        (fun c => !((fillna raw).cols.contains c))).isSome := by
      rw [List.find?_isSome]
      refine ⟨col0, hcol0, ?_⟩
      simpa [fillna] using hmiss0
    obtain ⟨col, hcol⟩ := Option.isSome_iff_exists.mp hsome
    have hmem := List.mem_of_find?_eq_some hcol
    have hp := List.find?_some hcol
    have hnotmem : col ∉ raw.cols := by
      simpa [fillna] using hp
    refine ⟨col, hmem, hnotmem, ?_⟩
    rw [hrw]
    simp only [rebuild, hread]
    have hne : ¬env.searchCols = [] := by
      intro hnil
      rw [hnil] at hcol0
      cases hcol0
    rw [if_neg hne, hcol]

/-- Witness for C6: configured column `"zz"` is absent from `rawTie`; the
rebuild fails with the schema error naming it and resets the cache. -/
theorem rebuild_config_schema_errors_witness :
    latestEntry envMisCol.dir = some ("uploads/mis.xlsx", 1) ∧
    envMisCol.read "uploads/mis.xlsx" = some rawTie ∧
    (∃ col, col ∈ envMisCol.searchCols ∧ col ∉ rawTie.cols ∧
      ensureData envMisCol emptyCache =
        (emptyCache, .error (.missingColumn col), 1)) :=
  ⟨rfl, rfl,
   (@rebuild_config_schema_errors envMisCol emptyCache "uploads/mis.xlsx" 1
      rawTie rfl (by simp [emptyCache]) rfl).2 ⟨"zz", by decide, by decide⟩⟩

/-- C7, counterexample.  The claim promises that under any category filter C
other than the sentinel every returned row's category equals C exactly.  With
the empty-string filter (a value distinct from the sentinel `"すべて"`), the
code's truthiness test `if functional_area` skips filtering entirely:
`envCat2`'s only row is returned although its category is `"A" ≠ ""`. -/
theorem search_empty_filter_cex :
    ("" : String) ≠ "すべて" ∧
    searchInquiries envCat2 "q" (some "") emptyCache =
      (cCat2, .ok [(["A", "x", "x"], (0 : ℚ))]) ∧
    cellAt (buildDf envCat2.searchCols (fillna rawCat2)) ["A", "x", "x"]
      "画面名称" = "A" ∧
    ("A" : String) ≠ "" :=
  ⟨by decide, rfl, rfl, by decide⟩

/-- C7, amended.  For a category filter that is neither empty nor the
sentinel `"すべて"`, every returned row's `画面名称` value equals the filter
exactly; for an absent, empty or sentinel filter, the candidate set is the
whole table (every row, paired with its original index). -/
theorem search_filter_semantics {env : Env} {q : String} {c : Cache}
    (hs : SortOk env.sortFn) :
    (∀ (fa : String) (c' : Cache) (r : List Scored), fa ≠ "" → fa ≠ "すべて" →
      searchInquiries env q (some fa) c = (c', .ok r) →
      ∀ x ∈ r, ∃ df, c'.df = some df ∧ cellAt df x.1 "画面名称" = fa) ∧
    (∀ (df : Frame) (fa : Option String),
      fa = none ∨ fa = some "" ∨ fa = some "すべて" →
      candidatesOf df fa = .ok df.rows.enum) := by
  constructor
  · intro fa c' r hfa1 hfa2 h x hx
    obtain ⟨df2, cand2, hdf2, hcand2, ir, hir, hxe⟩ := search_ok_mem hs h x hx
    refine ⟨df2, hdf2, ?_⟩
    have hor : ¬(fa = "" ∨ fa = "すべて") := by
      intro hor
      rcases hor with hh | hh
      · exact hfa1 hh
      · exact hfa2 hh
    simp only [candidatesOf] at hcand2
    rw [if_neg hor] at hcand2
    by_cases hcon : df2.cols.contains "画面名称" = true
    · rw [if_pos hcon] at hcand2
      have hceq := Except.ok.inj hcand2
      have hirf : ir ∈ df2.rows.enum.filter
          (fun ir => cellAt df2 ir.2 "画面名称" == fa) := hceq ▸ hir
      have hbeq := (List.mem_filter.mp hirf).2
      rw [hxe]
      exact eq_of_beq hbeq
    · rw [if_neg hcon] at hcand2
      cases hcand2
  · intro df fa hor
    rcases hor with h | h | h
    · subst h
      rfl
    · subst h
      simp [candidatesOf]
    · subst h
      simp [candidatesOf]

/-- Witness for C7 amended: filtering `envCat2` by `"A"` returns its single
row, whose category is `"A"`. -/
theorem search_filter_semantics_witness :
    searchInquiries envCat2 "q" (some "A") emptyCache =
      (cCat2, .ok [(["A", "x", "x"], (0 : ℚ))]) ∧
    (∀ x ∈ ([(["A", "x", "x"], (0 : ℚ))] : List Scored),
      ∃ df, cCat2.df = some df ∧ cellAt df x.1 "画面名称" = "A") ∧
    candidatesOf (buildDf envCat2.searchCols (fillna rawCat2)) (some "すべて") =
      .ok (buildDf envCat2.searchCols (fillna rawCat2)).rows.enum :=
  ⟨rfl,
   (@search_filter_semantics envCat2 "q" emptyCache sortOk_sortDescStable).1
     "A" cCat2 [(["A", "x", "x"], (0 : ℚ))] (by decide) (by decide) rfl,
   (@search_filter_semantics envCat2 "q" emptyCache sortOk_sortDescStable).2
     (buildDf envCat2.searchCols (fillna rawCat2)) (some "すべて")
     (Or.inr (Or.inr rfl))⟩

/-- Unfolding of `search_inquiries` once the ensure step has succeeded and
yielded a cached DataFrame. -/
theorem searchInquiries_eq {env : Env} {q : String} {fa : Option String}
    {c c1 : Cache} {n : Nat} {df : Frame}
    (hd : env.dir.isEmpty = false)
    (hens : ensureData env c = (c1, .ok (), n))
    (hdf : c1.df = some df) :
    searchInquiries env q fa c =
      match candidatesOf df fa with
      | .error e => (c1, .error e)
      | .ok cand =>
        if cand.isEmpty then (c1, .ok [])
        else (c1, .ok ((env.sortFn (scoreRows env q c1 cand)).take 100)) := by
  unfold searchInquiries
  rw [if_neg (by rw [hd]; exact Bool.false_ne_true)]
  simp only [hens, hdf]

/-- C8.  Two outcomes of a named (non-empty, non-sentinel) category filter
stay distinct: when the category column exists but no row matches, search
returns the empty result list with no error; when the category column itself
is absent from the table, search fails with the user-facing
`noCategoryColumn` error. -/
theorem search_zero_rows_vs_missing_column {env : Env} {q : String}
    {fa : String} {c c' : Cache} {n : Nat} {df : Frame}
    (hfa1 : fa ≠ "") (hfa2 : fa ≠ "すべて")
    (hd : env.dir.isEmpty = false)
    (hens : ensureData env c = (c', .ok (), n))
    (hdf : c'.df = some df) :
    (df.cols.contains "画面名称" = true →
      df.rows.enum.filter (fun ir => cellAt df ir.2 "画面名称" == fa) = [] →
      searchInquiries env q (some fa) c = (c', .ok [])) ∧
    (df.cols.contains "画面名称" = false →
      searchInquiries env q (some fa) c = (c', .error .noCategoryColumn)) := by
  have hor : ¬(fa = "" ∨ fa = "すべて") := by
    intro hor
    rcases hor with h | h
    · exact hfa1 h
    · exact hfa2 h
  constructor
  · intro hcon hfilter
    rw [searchInquiries_eq hd hens hdf]
    simp only [candidatesOf]
    rw [if_neg hor, if_pos hcon, hfilter]
    rfl
  · intro hcon
    rw [searchInquiries_eq hd hens hdf]
    simp only [candidatesOf]
    rw [if_neg hor, if_neg (by rw [hcon]; exact Bool.false_ne_true)]

/-- Witness for C8: in `envCat2` the filter `"B"` matches no row and search
returns `ok []`; in `envNoCat` the category column is absent and the same
filter yields the `noCategoryColumn` error. -/
theorem search_zero_rows_vs_missing_column_witness :
    searchInquiries envCat2 "q" (some "B") emptyCache = (cCat2, .ok []) ∧
    searchInquiries envNoCat "q" (some "B") emptyCache =
      (cNoCat, .error .noCategoryColumn) :=
  ⟨(@search_zero_rows_vs_missing_column envCat2 "q" "B" emptyCache cCat2 1
      (buildDf envCat2.searchCols (fillna rawCat2)) (by decide) (by decide)
      rfl rfl rfl).1 rfl rfl,
   (@search_zero_rows_vs_missing_column envNoCat "q" "B" emptyCache cNoCat 1
      (buildDf envNoCat.searchCols (fillna rawNoCat)) (by decide) (by decide)
      rfl rfl rfl).2 rfl⟩

/-- C9.  With an unchanged non-empty `uploads/` directory, the first
`ensureFresh` after an invalidation performs exactly one file read (one
rebuild), and a repeated call is a no-op: it reads no file and leaves the
cache entry unchanged. -/
theorem ensure_idempotent {env : Env} {c1 : Cache} {n : Nat}
    (hne : env.dir ≠ [])
    (h1 : ensureData env emptyCache = (c1, .ok (), n)) :
    n = 1 ∧ ensureData env c1 = (c1, .ok (), 0) := by
  obtain ⟨pt, hl⟩ := latestEntry_isSome hne
  have hmiss : ensureData env emptyCache = rebuild env pt.1 :=
    ensureData_miss hl (by simp [emptyCache])
  rw [hmiss] at h1
  obtain ⟨raw, hraw, hn, hc⟩ := rebuild_ok h1
  refine ⟨hn, ?_⟩
  apply ensureData_hit hl
  · rw [hc]
  · rw [hc]
    rfl

/-- Witness for C9 at `envTie`. -/
theorem ensure_idempotent_witness :
    ensureData envTie emptyCache = (cTie, .ok (), 1) ∧
    ((1 : Nat) = 1 ∧ ensureData envTie cTie = (cTie, .ok (), 0)) :=
  ⟨rfl, @ensure_idempotent envTie cTie 1 (by decide) rfl⟩

/-- C10.  When the cache is fresh (the cached `filepath` is the newest
file's path and a table is cached), a search call — whatever its outcome —
returns with the cached state (`filepath`, `df`, `vectorizer`, `matrix`)
unchanged: filtering and scoring happen on a per-request copy. -/
theorem search_preserves_cache {env : Env} {q : String} {fa : Option String}
    {c : Cache} {pt : String × Nat}
    (hl : latestEntry env.dir = some pt)
    (hfp : c.filepath = some pt.1) (hdf : c.df.isSome) :
    (searchInquiries env q fa c).1 = c := by
  obtain ⟨df, hdf'⟩ := Option.isSome_iff_exists.mp hdf
  have hens : ensureData env c = (c, .ok (), 0) := ensureData_hit hl hfp hdf
  rw [searchInquiries_eq (isEmpty_false_of_latestEntry hl) hens hdf']
  split
  · rfl
  · split
    · rfl
    · rfl

/-- Witness for C10 at `envTie` with the fresh cache `cTie`. -/
theorem search_preserves_cache_witness :
    latestEntry envTie.dir = some ("uploads/data.xlsx", 1) ∧
    cTie.filepath = some "uploads/data.xlsx" ∧ cTie.df.isSome ∧
    (searchInquiries envTie "q" none cTie).1 = cTie :=
  ⟨rfl, rfl, rfl,
   @search_preserves_cache envTie "q" none cTie ("uploads/data.xlsx", 1)
     rfl rfl rfl⟩
